import Mathlib

/-
Verification of the brokenfuse core: the inode tree (src/ftree.rs), the
effect kinds (src/effect/detail.rs), the defined-effect registry and the
engine (src/effect/mod.rs), the xattr control plane (src/xaops.rs), the
in-memory storage backend (src/storage.rs) and the dispatcher handlers
(src/main.rs).  Rust machine integers are modelled as Nat (u64/usize) and
Int (i64/c_int); f32 values are modelled as exact rationals; wall-clock
times are Nat values supplied per call.  A Rust unwrap or index that can
abort the process is modelled by an explicit `panicked` result.
-/

namespace BF

/-- Errno EIO, the Flakey default. -/
def EIO : Int := 5

/-- Errno ENOENT. -/
def ENOENT : Int := 2

/-- Errno EEXIST. -/
def EEXIST : Int := 17

/-- Errno EINVAL. -/
def EINVAL : Int := 22

/-- Errno ENOSPC, returned by MaxSize. -/
def ENOSPC : Int := 28

/-- Errno EDQUOT, returned by Quota. -/
def EDQUOT : Int := 122

/-- File kind, mirroring the fuser FileType values the code uses:
Directory, RegularFile, Symlink. -/
inductive FKind where
  | dir
  | regular
  | symlink
deriving DecidableEq

/-- effect/mod.rs OpType: a bit set over R = 1, W = 2, L = 4, M = 8
(bitflags), modelled as one Bool per bit. -/
structure OpTypeM where
  r : Bool
  w : Bool
  l : Bool
  m : Bool
deriving DecidableEq

/-- The empty OpType (no bits set). -/
def OpTypeM.empty : OpTypeM := ⟨false, false, false, false⟩

/-- Bitwise intersection of two OpType sets. -/
def OpTypeM.inter (a b : OpTypeM) : OpTypeM :=
  ⟨a.r && b.r, a.w && b.w, a.l && b.l, a.m && b.m⟩

/-- Bitwise union of two OpType sets (the |= in from_str). -/
def OpTypeM.union (a b : OpTypeM) : OpTypeM :=
  ⟨a.r || b.r, a.w || b.w, a.l || b.l, a.m || b.m⟩

/-- bitflags is_empty. -/
def OpTypeM.isEmpty (a : OpTypeM) : Bool :=
  !(a.r || a.w || a.l || a.m)

/-- bitflags from_name for the four single-letter flag names. -/
def OpTypeM.fromName (s : String) : Option OpTypeM :=
  if s = "R" then some ⟨true, false, false, false⟩
  else if s = "W" then some ⟨false, true, false, false⟩
  else if s = "L" then some ⟨false, false, true, false⟩
  else if s = "M" then some ⟨false, false, false, true⟩
  else none

/-- Accumulating loop of OpType::from_str (effect/mod.rs): each character
is uppercased and looked up by flag name; an unknown letter rejects the
whole string with EINVAL. -/
def OpTypeM.fromStrAux : OpTypeM → List Char → Except Int OpTypeM
  | acc, [] => .ok acc
  | acc, c :: cs =>
    match OpTypeM.fromName (String.mk [c.toUpper]) with
    | none => .error EINVAL
    | some t => OpTypeM.fromStrAux (acc.union t) cs

/-- OpType::from_str (effect/mod.rs). -/
def OpTypeM.fromStr (s : String) : Except Int OpTypeM :=
  OpTypeM.fromStrAux OpTypeM.empty s.data

/-- Display for OpType (effect/mod.rs): the names of the set flags in
declaration order R, W, L, M, concatenated. -/
def OpTypeM.fmt (t : OpTypeM) : String :=
  (if t.r then "R" else "") ++ (if t.w then "W" else "")
    ++ (if t.l then "L" else "") ++ (if t.m then "M" else "")

/-- effect/mod.rs OpDesr: the operation descriptor carried in the context.
Offsets and lengths are usize. -/
inductive OpDesr where
  | read (offset len : Nat)
  | write (offset len : Nat)
deriving DecidableEq

/-- OpDesr::optype: the single-bit op type of the descriptor. -/
def OpDesr.optype : OpDesr → OpTypeM
  | .read _ _ => ⟨true, false, false, false⟩
  | .write _ _ => ⟨false, true, false, false⟩

/-- effect/mod.rs EffectResult. -/
inductive EffectResult where
  | ack
  | error (errno : Int)
  | delay (ms : Nat)
deriving DecidableEq

/-- A parsed serde_json value.  JSON floats are carried as exact
rationals: serde_json prints an f32 as the shortest decimal that parses
back to the same value, so round-trips are exact and a verbatim rational
models them faithfully.  Object key order is irrelevant to parsing. -/
inductive JVal where
  | jnull
  | jbool (b : Bool)
  | jint (n : Int)
  | jrat (q : Rat)
  | jstr (s : String)
  | jarr (xs : List JVal)
  | jobj (fields : List (String × JVal))

/-- Look a key up in a JSON object (serde_json map get). -/
def jlookup : List (String × JVal) → String → Option JVal
  | [], _ => none
  | (k, v) :: rest, key => if k = key then some v else jlookup rest key

/-- Remove a key from a JSON object (serde_json map remove). -/
def jremove (fields : List (String × JVal)) (key : String) : List (String × JVal) :=
  fields.filter (fun kv => kv.1 ≠ key)

/-- serde u64/usize deserialization: only a non-negative JSON integer. -/
def jAsU64 : JVal → Option Nat
  | .jint n => if 0 ≤ n then some n.toNat else none
  | _ => none

/-- serde i32 deserialization (errno fields). -/
def jAsI32 : JVal → Option Int
  | .jint n => some n
  | _ => none

/-- serde f32 deserialization: any JSON number. -/
def jAsF32 : JVal → Option Rat
  | .jint n => some (n : Rat)
  | .jrat q => some q
  | _ => none

/-- serde string deserialization (the as_str access in create). -/
def jAsStr : JVal → Option String
  | .jstr s => some s
  | _ => none

/-- effect/detail.rs FlakeyCondition (untagged): a firing probability or
an availability interval.  The f32 probability is an exact rational. -/
inductive FlakeyCond where
  | prob (p : Rat)
  | interval (avail_ms unavail_ms : Nat)
deriving DecidableEq

/-- The five effect kinds of effect/detail.rs, each carrying its
configuration and, for HeatMap and Quota, the interior-mutable state the
Rust code keeps in a RefCell/Cell (the BTreeMap of hit counts, the running
volume). -/
inductive EffectM where
  | delay (duration_ms : Nat)
  | flakey (cond : FlakeyCond) (errno : Int)
  | maxsize (limit : Nat)
  | heatmap (align : Nat) (values : List ((Nat × Nat) × Nat))
  | quota (volume : Nat) (align : Nat) (current : Nat)
deriving DecidableEq

/-- effect/mod.rs DefinedEffect: a named, op-filtered effect. -/
structure DefinedEffectM where
  name : String
  effect : EffectM
  op : OpTypeM
deriving DecidableEq

/-- ftypes.rs FileStats: five monotonic counters. -/
structure FileStatsM where
  reads : Nat
  read_volume : Nat
  writes : Nat
  write_volume : Nat
  errors : Nat
deriving DecidableEq

/-- The all-zero FileStats (Default in ftypes.rs). -/
def FileStatsM.zero : FileStatsM := ⟨0, 0, 0, 0, 0⟩

/-- ftypes.rs NodeItem.  A File owns its byte storage and stats; the
storage is modelled by the in-memory RamStorage backend of storage.rs
(the default factory), a byte buffer. -/
inductive NodeItemM where
  | dir (children : List (Nat × String))
  | file (buffer : List Nat) (stats : FileStatsM)
  | symlink (path : String)
deriving DecidableEq

/-- POSIX-like attributes, the fuser FileAttr fields the code reads and
writes.  Times are natural clock values supplied per call. -/
structure AttrM where
  ino : Nat
  size : Nat
  blocks : Nat
  atime : Nat
  mtime : Nat
  ctime : Nat
  crtime : Nat
  kind : FKind
  perm : Nat
  nlink : Nat
  uid : Nat
  gid : Nat
  blksize : Nat
deriving DecidableEq

/-- ftypes.rs Node: one inode slot. -/
structure NodeM where
  parent : Nat
  attr : AttrM
  item : NodeItemM
  effects : List DefinedEffectM
deriving DecidableEq

/-- ftree.rs Tree: a slab of optional nodes plus a free-list of indices.
The free-list models the Rust Vec: push appends, pop takes the last
element. -/
structure TreeM where
  nodes : List (Option NodeM)
  freelist : List Nat
deriving DecidableEq

/-- Dir::lookup (ftypes.rs): first entry with the given name. -/
def dirLookup : List (Nat × String) → String → Option Nat
  | [], _ => none
  | (i, n) :: rest, name => if n = name then some i else dirLookup rest name

/-- Dir::remove (ftypes.rs): retain the entries whose name differs. -/
def dirRemove (children : List (Nat × String)) (name : String) : List (Nat × String) :=
  children.filter (fun e => e.2 ≠ name)

/-- Dir::add (ftypes.rs): push the entry at the end. -/
def dirAdd (children : List (Nat × String)) (ino : Nat) (name : String) :
    List (Nat × String) :=
  children ++ [(ino, name)]

/-- Tree::get (ftree.rs): nodes.get(ino) flattened; out of range or a
vacant slot gives none. -/
def TreeM.slot (t : TreeM) (i : Nat) : Option NodeM :=
  t.nodes.getD i none

/-- Write a slab slot (the *nref = ... and nodes[i] mutations). -/
def TreeM.setSlot (t : TreeM) (i : Nat) (v : Option NodeM) : TreeM :=
  { t with nodes := t.nodes.set i v }

/-- Tree::count (ftree.rs): the number of present slots. -/
def TreeM.count (t : TreeM) : Nat :=
  (t.nodes.filter Option.isSome).length

/-- The climb iterator of ftree.rs driven by explicit fuel: the iterator
state is the optional current ino; a vacant slot ends the iteration
without a yield, a present node is yielded and the state moves to its
parent unless the parent equals the current ino (the root sentinel).
With enough fuel the returned list is exactly the sequence of yields; on
a parent cycle every fuel bound is exhausted, matching an iterator that
never terminates.  (The Rust body indexes nodes[ino], which aborts for an
ino past the slab end; the model ends the iteration there instead, a
difference only for out-of-range arguments no claim exercises.) -/
def TreeM.climbAux (t : TreeM) : Nat → Option Nat → List NodeM
  | 0, _ => []
  | _ + 1, none => []
  | fuel + 1, some i =>
    match t.slot i with
    | none => []
    | some n => n :: t.climbAux fuel (if n.parent ≠ i then some n.parent else none)

/-- Same iteration as climbAux but collecting the visited slab indices. -/
def TreeM.climbIdx (t : TreeM) : Nat → Option Nat → List Nat
  | 0, _ => []
  | _ + 1, none => []
  | fuel + 1, some i =>
    match t.slot i with
    | none => []
    | some n => i :: t.climbIdx fuel (if n.parent ≠ i then some n.parent else none)

/-- The climb path used by the dispatcher: fuel one past the slab length
is enough for every cycle-free chain. -/
def TreeM.climbPath (t : TreeM) (ino : Nat) : List NodeM :=
  t.climbAux (t.nodes.length + 1) (some ino)

/-- effect/mod.rs Context.  The immutable tree reference is a copy of the
tree value; the StdRng is a stream of f32 draws (exact rationals) indexed
by a cursor; the wall clock consulted by Flakey interval mode is a fixed
millisecond value for the request. -/
structure Ctx where
  op : OpDesr
  origin : Nat
  target : Nat
  tree : TreeM
  rng : Nat → Rat
  rngIdx : Nat
  now_ms : Nat

/-- The attr.size of ctx.tree.get(ctx.target), which MaxSize and HeatMap
unwrap.  A missing target aborts the Rust process; the model returns 0
there, a state no claim reaches (the engine only runs on resolved
inodes). -/
def targetSize (t : TreeM) (ino : Nat) : Nat :=
  match t.slot ino with
  | some n => n.attr.size
  | none => 0

/-- Modelled from the spec: Tree::traverse is called by MaxSize::apply
(effect/detail.rs) but its definition is not under src/.  Per section 4.2
it visits the subtree rooted at the origin inode; membership of a slot in
that subtree is modelled by the origin appearing on the slot's parent
chain (the climb indices).  The result is the i64 sum of attr.size over
the present regular-file slots of the subtree. -/
def subtreeRegularTotal (t : TreeM) (origin : Nat) : Int :=
  (List.range t.nodes.length).foldl
    (fun acc i =>
      match t.slot i with
      | some n =>
        if n.attr.kind = FKind.regular ∧ origin ∈ t.climbIdx (t.nodes.length + 1) (some i)
        then acc + (n.attr.size : Int) else acc
      | none => acc)
    0

/-- BTreeMap entry().and_modify(+1).or_insert(1) on the HeatMap hit table,
keys ordered lexicographically. -/
def bmapIncr : List ((Nat × Nat) × Nat) → (Nat × Nat) → List ((Nat × Nat) × Nat)
  | [], k => [(k, 1)]
  | (k0, v) :: rest, k =>
    if k = k0 then (k0, v + 1) :: rest
    else if k.1 < k0.1 ∨ (k.1 = k0.1 ∧ k.2 < k0.2) then (k, 1) :: (k0, v) :: rest
    else (k0, v) :: bmapIncr rest k

/-- Effect::apply for the five kinds (effect/detail.rs).  The returned
effect carries the updated interior state (HeatMap table, Quota counter);
the returned context carries the advanced RNG cursor.  Nat division and
remainder by zero yield zero where the Rust code would abort (Quota and
HeatMap with align 0, Flakey with a zero period); no claim exercises
those configurations. -/
def EffectM.apply : EffectM → Ctx → EffectResult × EffectM × Ctx
  | .delay ms, ctx => (.delay ms, .delay ms, ctx)
  | .flakey (.prob p) errno, ctx =>
    let draw := ctx.rng ctx.rngIdx
    ((if draw ≤ p then .error errno else .ack),
      .flakey (.prob p) errno, { ctx with rngIdx := ctx.rngIdx + 1 })
  | .flakey (.interval a u) errno, ctx =>
    let rem := ctx.now_ms % (a + u)
    ((if rem ≤ a then .error errno else .ack), .flakey (.interval a u) errno, ctx)
  | .maxsize limit, ctx =>
    match ctx.op with
    | .write offset len =>
      let file_size := targetSize ctx.tree ctx.target
      let need_grow : Int := ((offset + len : Nat) : Int) - (file_size : Int)
      if need_grow < 0 then (.ack, .maxsize limit, ctx)
      else
        let total := subtreeRegularTotal ctx.tree ctx.origin
        if total + need_grow > (limit : Int) then (.error ENOSPC, .maxsize limit, ctx)
        else (.ack, .maxsize limit, ctx)
    | _ => (.ack, .maxsize limit, ctx)
  | .heatmap align values, ctx =>
    match ctx.op with
    | .read offset len | .write offset len =>
      let file_size := targetSize ctx.tree ctx.target
      let o1 := min offset file_size
      let l1 := min len (file_size - o1)
      let o2 := o1 / align * align
      let l2 := (l1 + align - 1) / align * align
      (.ack, .heatmap align (bmapIncr values (o2, l2)), ctx)
  | .quota volume align current, ctx =>
    match ctx.op with
    | .read _ len | .write _ len =>
      let len2 := (len + align - 1) / align * align
      let cur := current + len2
      ((if cur < volume then .ack else .error EDQUOT),
        .quota volume align cur, ctx)

/-- The inner loop of run (effect/mod.rs): fold over one node's defined
effects in insertion order.  An effect whose op set has empty
intersection with the request op type is skipped; Ack continues; Delay
adds to the accumulated sleep; Error stops, leaving every later effect
untouched.  Returns (sleep, first error, updated effects, context). -/
def runEffects : List DefinedEffectM → Ctx → Nat × Option Int × List DefinedEffectM × Ctx
  | [], ctx => (0, none, [], ctx)
  | de :: rest, ctx =>
    if (ctx.op.optype.inter de.op).isEmpty then
      let (d, e, rest2, ctx2) := runEffects rest ctx
      (d, e, de :: rest2, ctx2)
    else
      match de.effect.apply ctx with
      | (.ack, ef2, ctx2) =>
        let (d, e, rest2, ctx3) := runEffects rest ctx2
        (d, e, { de with effect := ef2 } :: rest2, ctx3)
      | (.error errno, ef2, ctx2) =>
        (0, some errno, { de with effect := ef2 } :: rest, ctx2)
      | (.delay ms, ef2, ctx2) =>
        let (d, e, rest2, ctx3) := runEffects rest ctx2
        (ms + d, e, { de with effect := ef2 } :: rest2, ctx3)

/-- run (effect/mod.rs): walk the climb path child-first; at each node set
ctx.origin to the node's attr.ino and evaluate its effects; a single
error breaks the outer loop, retaining the sleep accumulated so far and
leaving every remaining node untouched. -/
def runPath : List NodeM → Ctx → Nat × Option Int × List NodeM × Ctx
  | [], ctx => (0, none, [], ctx)
  | n :: rest, ctx =>
    let ctx0 := { ctx with origin := n.attr.ino }
    let (d, e, es2, ctx2) := runEffects n.effects ctx0
    match e with
    | some err => (d, some err, { n with effects := es2 } :: rest, ctx2)
    | none =>
      let (d2, e2, rest2, ctx3) := runPath rest ctx2
      (d + d2, e2, { n with effects := es2 } :: rest2, ctx3)

/-- Outcome of an operation that can abort the process: `panicked` models
a Rust unwrap failure, an out-of-range Vec index or an explicit abort;
`errno` models an error the code returns to its caller; `ok` carries the
result. -/
inductive OpOut (α : Type) where
  | panicked
  | errno (e : Int)
  | ok (a : α)
deriving DecidableEq

/-- fresh_attr (main.rs): zero size and blocks, all times now, nlink 1,
blksize 4096. -/
def freshAttr (ino : Nat) (kind : FKind) (_flags mode uid gid now : Nat) : AttrM :=
  { ino := ino, size := 0, blocks := 0, atime := now, mtime := now, ctime := now,
    crtime := now, kind := kind, perm := mode, nlink := 1, uid := uid, gid := gid,
    blksize := 4096 }

/-- Tree::initial over the two directory nodes main.rs mounts with: slot 0
whose parent is 0 and slot 1 (the FUSE root) whose parent is 1, both with
empty child lists and empty effect groups; the free-list starts empty.
flags is unused by any claim and modelled as 0. -/
def baseTree : TreeM :=
  { nodes :=
      [some { parent := 0, attr := freshAttr 0 FKind.dir 0 0 1000 1001 0,
              item := NodeItemM.dir [], effects := [] },
       some { parent := 1, attr := freshAttr 1 FKind.dir 0 0o754 1000 1001 0,
              item := NodeItemM.dir [], effects := [] }],
    freelist := [] }

/-- The ensure step at the top of Tree::create: an empty free-list gets
one fresh index, backed by a new empty slot. -/
def TreeM.ensureFree (t : TreeM) : TreeM :=
  if t.freelist.isEmpty
  then { nodes := t.nodes ++ [none], freelist := t.freelist ++ [t.nodes.length] }
  else t

/-- Tree::create (ftree.rs): first make sure the free-list is non-empty by
pushing a fresh index and an empty slot; then look the parent up (missing
or vacant is ENOENT, a non-directory is ENOENT); on a name collision
EEXIST, otherwise pop the free-list, register the entry, stamp the parent
times, set blocks to 1 and grow the directory size.  Returns the
allocated ino together with the mutated tree (the ensure-push also
persists on the error paths, as it does through the Rust &mut self); the
allocated slot itself stays empty for the caller to fill. -/
def TreeM.create (t : TreeM) (parent : Nat) (name : String) (now : Nat) :
    Except Int Nat × TreeM :=
  let t1 := t.ensureFree
  match t1.slot parent with
  | none => (.error ENOENT, t1)
  | some pnode =>
    match pnode.item with
    | .dir children =>
      if (dirLookup children name).isNone then
        let ino := t1.freelist.getLast?.getD 0
        let pnode2 := { pnode with
          attr := { pnode.attr with
            mtime := now
            ctime := now
            blocks := 1
            size := pnode.attr.size + 1 }
          item := NodeItemM.dir (dirAdd children ino name) }
        (.ok ino, { nodes := t1.nodes.set parent (some pnode2)
                    freelist := t1.freelist.dropLast })
      else (.error EEXIST, t1)
    | _ => (.error ENOENT, t1)

/-- Tree::link (ftree.rs): nodes[ino] aborts past the slab end; a vacant
slot is ENOENT; then the parent directory gains an entry exactly as in
create (EEXIST on collision, ENOENT for a missing or non-directory
parent) and the linked node's nlink grows by one. -/
def TreeM.link (t : TreeM) (ino parent : Nat) (name : String) (now : Nat) :
    OpOut TreeM :=
  if t.nodes.length ≤ ino then .panicked
  else if (t.slot ino).isNone then .errno ENOENT
  else
    match t.slot parent with
    | none => .errno ENOENT
    | some pnode =>
      match pnode.item with
      | .dir children =>
        if (dirLookup children name).isNone then
          let pnode2 := { pnode with
            attr := { pnode.attr with
              mtime := now
              ctime := now
              blocks := 1
              size := pnode.attr.size + 1 }
            item := NodeItemM.dir (dirAdd children ino name) }
          let t2 := t.setSlot parent (some pnode2)
          match t2.slot ino with
          | none => .errno ENOENT
          | some node =>
            .ok (t2.setSlot ino
              (some { node with attr := { node.attr with nlink := node.attr.nlink + 1 } }))
        else .errno EEXIST
      | _ => .errno ENOENT

/-- Tree::unlink (ftree.rs): nodes[parent].as_mut().unwrap() aborts for a
missing slot and the non-directory arm aborts explicitly.  The parent
times are stamped and its size is decremented BEFORE the name is looked
up; a missing name then returns None with those mutations kept.  (The
u64 size decrement is modelled by truncated Nat subtraction; both sides
underflow only for an empty directory, where debug Rust aborts.)  On a
hit the entry is removed, the target's nlink is decremented, and a node
reaching nlink 0 has its slot taken — the vacated index is NOT pushed
onto the free-list.  Returns the Rust Option result with the updated
tree. -/
def TreeM.unlink (t : TreeM) (parent : Nat) (name : String) (now : Nat) :
    OpOut (Option Unit × TreeM) :=
  match t.slot parent with
  | none => .panicked
  | some pnode =>
    match pnode.item with
    | .dir children =>
      let pattr := { pnode.attr with
        mtime := now
        ctime := now
        size := pnode.attr.size - 1 }
      match dirLookup children name with
      | none =>
        .ok (none, t.setSlot parent (some { pnode with attr := pattr }))
      | some ino =>
        let t2 := t.setSlot parent
          (some { pnode with attr := pattr, item := NodeItemM.dir (dirRemove children name) })
        match t2.slot ino with
        | none => .panicked
        | some node =>
          let nlink2 := node.attr.nlink - 1
          if nlink2 = 0 then
            .ok (some (), t2.setSlot ino none)
          else
            .ok (some (),
              t2.setSlot ino (some { node with attr := { node.attr with nlink := nlink2 } }))
    | _ => .panicked

/-- Tree::rename (ftree.rs): the old parent slot is unwrapped (abort on a
missing slot, explicit abort on a non-directory), its times are stamped
and its size decremented before the old name is looked up; then the new
parent slot is unwrapped the same way, stamped, its size grown, and
dir.add(ino.unwrap(), name) is called — which aborts when the old name
was not found, so the None return below the add is unreachable. -/
def TreeM.rename (t : TreeM) (old_parent : Nat) (old_name : String)
    (parent : Nat) (name : String) (now : Nat) : OpOut (Option Nat × TreeM) :=
  match t.slot old_parent with
  | none => .panicked
  | some opnode =>
    match opnode.item with
    | .dir ochildren =>
      let oattr := { opnode.attr with
        mtime := now
        ctime := now
        size := opnode.attr.size - 1 }
      let ino? := dirLookup ochildren old_name
      let ochildren2 := match ino? with
        | some _ => dirRemove ochildren old_name
        | none => ochildren
      let t2 := t.setSlot old_parent
        (some { opnode with attr := oattr, item := NodeItemM.dir ochildren2 })
      match t2.slot parent with
      | none => .panicked
      | some pnode =>
        match pnode.item with
        | .dir children =>
          match ino? with
          | none => .panicked
          | some ino =>
            let pnode2 := { pnode with
              attr := { pnode.attr with
                mtime := now
                ctime := now
                blocks := 1
                size := pnode.attr.size + 1 }
              item := NodeItemM.dir (dirAdd children ino name) }
            .ok (some ino, t2.setSlot parent (some pnode2))
        | _ => .panicked
    | _ => .panicked

/-- RamStorage::read (storage.rs): clamp the range to the buffer and
return the slice, empty when the clamped range is empty. -/
def ramRead (buf : List Nat) (offset size : Nat) : List Nat :=
  let start := min offset buf.length
  let stop := min (offset + size) buf.length
  if stop ≤ start then [] else (buf.drop start).take (stop - start)

/-- RamStorage::write (storage.rs): grow the buffer with zeros up to
offset + data.len() when needed, then overwrite that range. -/
def ramWrite (buf : List Nat) (offset : Nat) (data : List Nat) : List Nat :=
  let stop := offset + data.length
  let buf2 := if buf.length ≤ stop then buf ++ List.replicate (stop - buf.length) 0 else buf
  (buf2.take offset) ++ data ++ (buf2.drop stop)

/-- main.rs NodeCreateT. -/
inductive NodeCreateTM where
  | dirT
  | fileT
  | symlinkT (path : String)

/-- TestFS::create_node (main.rs): allocate through Tree::create, then
fill the returned slot with a fresh node of the requested kind; a file
gets an empty storage buffer from the factory and zero stats.  The
request mode, flags, uid and gid do not bear on any claim and are fixed
(0, 0, 1000, 1001). -/
def createNodeFS (t : TreeM) (parent : Nat) (name : String) (nt : NodeCreateTM)
    (now : Nat) : Except Int Nat × TreeM :=
  match t.create parent name now with
  | (.error e, t2) => (.error e, t2)
  | (.ok ino, t2) =>
    let ki : FKind × NodeItemM :=
      match nt with
      | .dirT => (FKind.dir, NodeItemM.dir [])
      | .fileT => (FKind.regular, NodeItemM.file [] FileStatsM.zero)
      | .symlinkT p => (FKind.symlink, NodeItemM.symlink p)
    (.ok ino, t2.setSlot ino
      (some { parent := parent, attr := freshAttr ino ki.1 0 0 1000 1001 now,
              item := ki.2, effects := [] }))

/-- TestFS::rename (main.rs): forward to Tree::rename; a None result
would be replied as ENOENT (unreachable, since Tree::rename aborts
instead); on Some(ino) the moved node is accessed mutably (stamping atime
and mtime), its parent pointer is repointed at the new parent and its
ctime stamped. -/
def renameFS (t : TreeM) (parent : Nat) (name : String) (newparent : Nat)
    (newname : String) (now : Nat) : OpOut TreeM :=
  match t.rename parent name newparent newname now with
  | .panicked => .panicked
  | .errno e => .errno e
  | .ok (none, _) => .errno ENOENT
  | .ok (some ino, t2) =>
    match t2.slot ino with
    | none => .panicked
    | some node =>
      .ok (t2.setSlot ino (some { node with
        parent := newparent
        attr := { node.attr with atime := now, mtime := now, ctime := now } }))

/-- str::strip_prefix at the character level: when the pattern is a
front segment of the string, the remainder; otherwise none.  Used to
model the starts_with test plus the strip in xaops.rs set under one
reducible definition. -/
def stripFront : List Char → List Char → Option (List Char)
  | [], rest => some rest
  | p :: ps, c :: cs => if c = p then stripFront ps cs else none
  | _ :: _, [] => none

/-- str::split_once at the dash, keeping the first component (the kind
name in DefinedEffect::create); a dashless name is kept whole. -/
def untilDash : List Char → List Char
  | [] => []
  | c :: cs => if c = '-' then [] else c :: untilDash cs

/-- Group::add (effect/mod.rs): remove any entry with the same name, then
push the new one. -/
def groupAdd (g : List DefinedEffectM) (de : DefinedEffectM) : List DefinedEffectM :=
  (g.filter (fun e => e.name ≠ de.name)) ++ [de]

/-- serde schema of Delay: the required u64 duration_ms; unknown fields
are ignored (serde default). -/
def parseDelayFields (fields : List (String × JVal)) : Option EffectM :=
  ((jlookup fields "duration_ms").bind jAsU64).map EffectM.delay

/-- serde schema of Flakey: the untagged condition tries Prob first (an
f32 prob field), then Interval (u64 avail_ms and unavail_ms); errno is an
optional i32 defaulting to EIO. -/
def parseFlakeyFields (fields : List (String × JVal)) : Option EffectM :=
  let cond? : Option FlakeyCond :=
    match (jlookup fields "prob").bind jAsF32 with
    | some p => some (FlakeyCond.prob p)
    | none =>
      match (jlookup fields "avail_ms").bind jAsU64,
            (jlookup fields "unavail_ms").bind jAsU64 with
      | some a, some u => some (FlakeyCond.interval a u)
      | _, _ => none
  match cond? with
  | none => none
  | some cond =>
    match jlookup fields "errno" with
    | none => some (EffectM.flakey cond EIO)
    | some v => (jAsI32 v).map (fun e => EffectM.flakey cond e)

/-- serde schema of MaxSize: the required usize limit. -/
def parseMaxSizeFields (fields : List (String × JVal)) : Option EffectM :=
  ((jlookup fields "limit").bind jAsU64).map EffectM.maxsize

/-- DefinedEffect::create (effect/mod.rs).  The input models the outcome
of serde_json::from_str on the xattr value: none for malformed JSON text,
on which the code unwraps and the process aborts.  The op field is
extracted and removed (missing, non-string or unparsable is EINVAL); the
kind name is the part of the name before the first dash; the match_effect
registry covers ONLY delay, flakey and maxsize — heatmap, quota and
anything else fall to the EINVAL arm; a schema error is EINVAL. -/
def DefinedEffectM.create (name : String) (data : Option JVal) : OpOut DefinedEffectM :=
  match data with
  | none => .panicked
  | some parsed =>
    let opStr? : Option String :=
      match parsed with
      | .jobj fields => (jlookup fields "op").bind jAsStr
      | _ => none
    match opStr? with
    | none => .errno EINVAL
    | some s =>
      match OpTypeM.fromStr s with
      | .error e => .errno e
      | .ok op =>
        let rest := match parsed with
          | .jobj fields => jremove fields "op"
          | _ => []
        let eftype := String.mk (untilDash name.data)
        if eftype = "delay" then
          match parseDelayFields rest with
          | some ef => .ok ⟨"delay", ef, op⟩
          | none => .errno EINVAL
        else if eftype = "flakey" then
          match parseFlakeyFields rest with
          | some ef => .ok ⟨"flakey", ef, op⟩
          | none => .errno EINVAL
        else if eftype = "maxsize" then
          match parseMaxSizeFields rest with
          | some ef => .ok ⟨"maxsize", ef, op⟩
          | none => .errno EINVAL
        else .errno EINVAL

/-- serialize_box (effect/mod.rs): the effect's own serde fields, in
declaration order.  Delay, Flakey and MaxSize are the downcasts the
function tries; any other dynamic type aborts the process, modelled by
none.  HeatMap's table and Quota's counter would be serde-skipped, but
neither kind reaches serialization. -/
def EffectM.serializeFields : EffectM → Option (List (String × JVal))
  | .delay d => some [("duration_ms", JVal.jint (d : Int))]
  | .flakey (.prob p) errno => some [("prob", JVal.jrat p), ("errno", JVal.jint errno)]
  | .flakey (.interval a u) errno =>
    some [("avail_ms", JVal.jint (a : Int)), ("unavail_ms", JVal.jint (u : Int)),
      ("errno", JVal.jint errno)]
  | .maxsize l => some [("limit", JVal.jint (l : Int))]
  | _ => none

/-- Serialization of a DefinedEffect (the serde derive on effect/mod.rs
DefinedEffect): the name, the flattened effect fields, and the op set as
its letter string. -/
def DefinedEffectM.serialize (de : DefinedEffectM) : Option JVal :=
  (de.effect.serializeFields).map (fun efs =>
    JVal.jobj ([("name", JVal.jstr de.name)] ++ efs ++ [("op", JVal.jstr de.op.fmt)]))

/-- Group serialization (xaops.rs reads it as a JSON array, one object
per defined effect in insertion order); none when serialize_box aborts
on any entry. -/
def serializeGroup : List DefinedEffectM → Option (List JVal)
  | [] => some []
  | de :: g =>
    match de.serialize, serializeGroup g with
    | some v, some vs => some (v :: vs)
    | _, _ => none

/-- xaops.rs set: "bf.effect" is accepted as a no-op; a name starting
with "bf.effect." strips the prefix and calls
DefinedEffect::create(kind, value).unwrap() — an Err aborts the process,
as does a malformed JSON value inside create — then unwraps the target
node and adds the effect to its group; any other name is None, which the
dispatcher replies as ENOENT. -/
def xaSet (t : TreeM) (ino : Nat) (name : String) (value : Option JVal) : OpOut TreeM :=
  if name = "bf.effect" then .ok t
  else
    match stripFront "bf.effect.".data name.data with
    | some kindChars =>
      match DefinedEffectM.create (String.mk kindChars) value with
      | .panicked => .panicked
      | .errno _ => .panicked
      | .ok de =>
        match t.slot ino with
        | none => .panicked
        | some n => .ok (t.setSlot ino (some { n with effects := groupAdd n.effects de }))
    | none => .errno ENOENT

/-- Modelled from the spec: the three-argument effect::run adapter main.rs
calls on read and write is not under src/ (effect/mod.rs run takes the
node iterator and the context).  Per section 4.4 the engine input is the
climb path from the target inode, child-first, and a context whose op,
target, tree and rng are pre-set.  Returns the engine tuple together with
the updated path nodes and context. -/
def runFS (t : TreeM) (ino : Nat) (op : OpDesr) (rng : Nat → Rat) (rngIdx now : Nat) :
    Nat × Option Int × List NodeM × Ctx :=
  runPath (t.climbPath ino)
    { op := op, origin := ino, target := ino, tree := t, rng := rng,
      rngIdx := rngIdx, now_ms := now }

/-- Re-apply the interior-state updates the engine made to the climb-path
nodes (each node is identified by its attr.ino): only the effect groups
are replaced, everything else in the slot is kept. -/
def updateEffectsAt (t : TreeM) (i : Nat) (es : List DefinedEffectM) : TreeM :=
  match t.slot i with
  | some n => t.setSlot i (some { n with effects := es })
  | none => t

/-- Fold updateEffectsAt over the engine's updated path. -/
def writeBackEffects (t : TreeM) (path : List NodeM) : TreeM :=
  path.foldl (fun acc n => updateEffectsAt acc n.attr.ino n.effects) t

/-- TestFS::write (main.rs): run the engine with op type W first; an
engine error is replied (after the accumulated delay) without touching
storage or stats; otherwise the node is accessed mutably (atime and
mtime stamped), the bytes are written, size and blocks recomputed, and
the writes and write_volume counters bumped; a non-file is ENOENT.
Returns the tree, the errno replied (none on success) and the advanced
RNG cursor. -/
def writeFS (t : TreeM) (ino offset : Nat) (data : List Nat) (rng : Nat → Rat)
    (rngIdx now : Nat) : TreeM × Option Int × Nat :=
  let (_, err, path2, ctx2) := runFS t ino (.write offset data.length) rng rngIdx now
  let t1 := writeBackEffects t path2
  match err with
  | some e => (t1, some e, ctx2.rngIdx)
  | none =>
    match t1.slot ino with
    | none => (t1, some ENOENT, ctx2.rngIdx)
    | some n =>
      let n1 := { n with attr := { n.attr with atime := now, mtime := now } }
      match n1.item with
      | .file buf stats =>
        let buf2 := ramWrite buf offset data
        let size2 := buf2.length
        let stats2 := { stats with
          writes := stats.writes + 1
          write_volume := stats.write_volume + data.length }
        let n2 := { n1 with
          attr := { n1.attr with size := size2, blocks := size2 / n1.attr.blksize + 1 }
          item := NodeItemM.file buf2 stats2 }
        (t1.setSlot ino (some n2), none, ctx2.rngIdx)
      | _ => (t1.setSlot ino (some n1), some ENOENT, ctx2.rngIdx)

/-- TestFS::read (main.rs): run the engine with op type R first; an
engine error is replied without touching stats; otherwise the node is
accessed (atime stamped), the clamped bytes are read and the reads and
read_volume counters bumped; a non-file is ENOENT.  Returns the tree,
the errno replied, the data, and the advanced RNG cursor. -/
def readFS (t : TreeM) (ino offset size : Nat) (rng : Nat → Rat)
    (rngIdx now : Nat) : TreeM × Option Int × List Nat × Nat :=
  let (_, err, path2, ctx2) := runFS t ino (.read offset size) rng rngIdx now
  let t1 := writeBackEffects t path2
  match err with
  | some e => (t1, some e, [], ctx2.rngIdx)
  | none =>
    match t1.slot ino with
    | none => (t1, some ENOENT, [], ctx2.rngIdx)
    | some n =>
      let n1 := { n with attr := { n.attr with atime := now } }
      match n1.item with
      | .file buf stats =>
        let data := ramRead buf offset size
        let stats2 := { stats with
          reads := stats.reads + 1
          read_volume := stats.read_volume + data.length }
        let n2 := { n1 with item := NodeItemM.file buf stats2 }
        (t1.setSlot ino (some n2), none, data, ctx2.rngIdx)
      | _ => (t1.setSlot ino (some n1), some ENOENT, [], ctx2.rngIdx)

/-- One dispatched request, as the single-threaded dispatcher receives
them. -/
inductive FsOp where
  | mkdirO (parent : Nat) (name : String)
  | mknodO (parent : Nat) (name : String)
  | symlinkO (parent : Nat) (name : String) (path : String)
  | linkO (ino parent : Nat) (name : String)
  | unlinkO (parent : Nat) (name : String)
  | renameO (parent : Nat) (name : String) (newparent : Nat) (newname : String)
  | writeO (ino offset : Nat) (data : List Nat)
  | readO (ino offset size : Nat)
  | setxO (ino : Nat) (name : String) (value : Option JVal)

/-- The mounted process state: the tree, the RNG stream and cursor, a
clock that advances once per request, and a dead flag recording that the
process aborted (after which nothing further happens). -/
structure SysState where
  tree : TreeM
  rng : Nat → Rat
  rngIdx : Nat
  now : Nat
  dead : Bool

/-- Dispatch one request through the main.rs handlers.  An errno reply
leaves the state the handler produced; an abort freezes the state. -/
def applyOp (s : SysState) (op : FsOp) : SysState :=
  if s.dead then s else
  let keep : TreeM → SysState := fun t =>
    { s with tree := t, now := s.now + 1 }
  match op with
  | .mkdirO p n => keep (createNodeFS s.tree p n .dirT s.now).2
  | .mknodO p n => keep (createNodeFS s.tree p n .fileT s.now).2
  | .symlinkO p n path => keep (createNodeFS s.tree p n (.symlinkT path) s.now).2
  | .linkO ino p n =>
    match s.tree.link ino p n s.now with
    | .panicked => { s with dead := true }
    | .errno _ => keep s.tree
    | .ok t2 => keep t2
  | .unlinkO p n =>
    match s.tree.unlink p n s.now with
    | .panicked => { s with dead := true }
    | .errno _ => keep s.tree
    | .ok (_, t2) => keep t2
  | .renameO p n np nn =>
    match renameFS s.tree p n np nn s.now with
    | .panicked => { s with dead := true }
    | .errno _ => keep s.tree
    | .ok t2 => keep t2
  | .writeO ino offset data =>
    let (t2, _, idx2) := writeFS s.tree ino offset data s.rng s.rngIdx s.now
    { s with tree := t2, rngIdx := idx2, now := s.now + 1 }
  | .readO ino offset size =>
    let (t2, _, _, idx2) := readFS s.tree ino offset size s.rng s.rngIdx s.now
    { s with tree := t2, rngIdx := idx2, now := s.now + 1 }
  | .setxO ino n v =>
    match xaSet s.tree ino n v with
    | .panicked => { s with dead := true }
    | .errno _ => keep s.tree
    | .ok t2 => keep t2

/-- Dispatch a request sequence in order. -/
def applyOps (s : SysState) : List FsOp → SysState
  | [] => s
  | op :: rest => applyOps (applyOp s op) rest

lemma runEffects_nil (ctx : Ctx) : runEffects [] ctx = (0, none, [], ctx) := rfl

lemma runEffects_cons_skip (de : DefinedEffectM) (rest : List DefinedEffectM) (ctx : Ctx)
    (h : (ctx.op.optype.inter de.op).isEmpty = true)
    (d : Nat) (e : Option Int) (rest2 : List DefinedEffectM) (c2 : Ctx)
    (hr : runEffects rest ctx = (d, e, rest2, c2)) :
    runEffects (de :: rest) ctx = (d, e, de :: rest2, c2) := by
  simp [runEffects, h, hr]

lemma runEffects_cons_ack (de : DefinedEffectM) (rest : List DefinedEffectM) (ctx : Ctx)
    (h : (ctx.op.optype.inter de.op).isEmpty = false)
    (ef2 : EffectM) (c1 : Ctx) (ha : de.effect.apply ctx = (.ack, ef2, c1))
    (d : Nat) (e : Option Int) (rest2 : List DefinedEffectM) (c2 : Ctx)
    (hr : runEffects rest c1 = (d, e, rest2, c2)) :
    runEffects (de :: rest) ctx = (d, e, { de with effect := ef2 } :: rest2, c2) := by
  simp [runEffects, h, ha, hr]

lemma runEffects_cons_error (de : DefinedEffectM) (rest : List DefinedEffectM) (ctx : Ctx)
    (h : (ctx.op.optype.inter de.op).isEmpty = false)
    (errno : Int) (ef2 : EffectM) (c1 : Ctx)
    (ha : de.effect.apply ctx = (.error errno, ef2, c1)) :
    runEffects (de :: rest) ctx = (0, some errno, { de with effect := ef2 } :: rest, c1) := by
  simp [runEffects, h, ha]

lemma runEffects_cons_delay (de : DefinedEffectM) (rest : List DefinedEffectM) (ctx : Ctx)
    (h : (ctx.op.optype.inter de.op).isEmpty = false)
    (ms : Nat) (ef2 : EffectM) (c1 : Ctx) (ha : de.effect.apply ctx = (.delay ms, ef2, c1))
    (d : Nat) (e : Option Int) (rest2 : List DefinedEffectM) (c2 : Ctx)
    (hr : runEffects rest c1 = (d, e, rest2, c2)) :
    runEffects (de :: rest) ctx = (ms + d, e, { de with effect := ef2 } :: rest2, c2) := by
  simp [runEffects, h, ha, hr]

lemma runPath_nil (ctx : Ctx) : runPath [] ctx = (0, none, [], ctx) := rfl

lemma runPath_cons_error (n : NodeM) (rest : List NodeM) (ctx : Ctx)
    (d : Nat) (err : Int) (es2 : List DefinedEffectM) (c2 : Ctx)
    (hr : runEffects n.effects { ctx with origin := n.attr.ino } = (d, some err, es2, c2)) :
    runPath (n :: rest) ctx = (d, some err, { n with effects := es2 } :: rest, c2) := by
  simp [runPath, hr]

lemma runPath_cons_ok (n : NodeM) (rest : List NodeM) (ctx : Ctx)
    (d : Nat) (es2 : List DefinedEffectM) (c2 : Ctx)
    (hr : runEffects n.effects { ctx with origin := n.attr.ino } = (d, none, es2, c2))
    (d2 : Nat) (e2 : Option Int) (rest2 : List NodeM) (c3 : Ctx)
    (hrest : runPath rest c2 = (d2, e2, rest2, c3)) :
    runPath (n :: rest) ctx = (d + d2, e2, { n with effects := es2 } :: rest2, c3) := by
  simp [runPath, hr, hrest]

/-- Splitting the inner engine loop at an error-free front: the front's
delay adds to whatever the back produces, and the updated lists
concatenate. -/
lemma runEffects_append_ok (as : List DefinedEffectM) (bs : List DefinedEffectM)
    (ctx : Ctx) (d : Nat) (as2 : List DefinedEffectM) (c1 : Ctx)
    (h : runEffects as ctx = (d, none, as2, c1))
    (d2 : Nat) (e2 : Option Int) (bs2 : List DefinedEffectM) (c2 : Ctx)
    (h2 : runEffects bs c1 = (d2, e2, bs2, c2)) :
    runEffects (as ++ bs) ctx = (d + d2, e2, as2 ++ bs2, c2) := by
  induction as generalizing ctx d as2 c1 with
  | nil =>
    rw [runEffects_nil] at h
    obtain ⟨rfl, rfl, rfl⟩ : d = 0 ∧ as2 = [] ∧ c1 = ctx := by simpa using h.symm
    simpa using h2
  | cons a as ih =>
    by_cases hs : (ctx.op.optype.inter a.op).isEmpty
    · rcases hr : runEffects as ctx with ⟨d', e', rest', c'⟩
      rw [runEffects_cons_skip a as ctx hs d' e' rest' c' hr] at h
      obtain ⟨rfl, rfl, rfl, rfl⟩ : d = d' ∧ (none : Option Int) = e' ∧ as2 = a :: rest' ∧ c1 = c' := by
        simpa using h.symm
      simpa using runEffects_cons_skip a (as ++ bs) ctx hs _ _ _ _ (ih _ _ _ _ hr h2)
    · rcases ha : a.effect.apply ctx with ⟨res, ef2, ca⟩
      cases res with
      | ack =>
        rcases hr : runEffects as ca with ⟨d', e', rest', c'⟩
        rw [runEffects_cons_ack a as ctx (by simpa using hs) ef2 ca ha d' e' rest' c' hr] at h
        obtain ⟨rfl, rfl, rfl, rfl⟩ :
            d = d' ∧ (none : Option Int) = e' ∧ as2 = { a with effect := ef2 } :: rest' ∧ c1 = c' := by
          simpa using h.symm
        simpa using runEffects_cons_ack a (as ++ bs) ctx (by simpa using hs) ef2 ca ha _ _ _ _
          (ih _ _ _ _ hr h2)
      | error errno =>
        rw [runEffects_cons_error a as ctx (by simpa using hs) errno ef2 ca ha] at h
        simp at h
      | delay ms =>
        rcases hr : runEffects as ca with ⟨d', e', rest', c'⟩
        rw [runEffects_cons_delay a as ctx (by simpa using hs) ms ef2 ca ha d' e' rest' c' hr] at h
        obtain ⟨rfl, rfl, rfl, rfl⟩ :
            d = ms + d' ∧ (none : Option Int) = e' ∧ as2 = { a with effect := ef2 } :: rest' ∧ c1 = c' := by
          simpa using h.symm
        have := runEffects_cons_delay a (as ++ bs) ctx (by simpa using hs) ms ef2 ca ha _ _ _ _
          (ih _ _ _ _ hr h2)
        simpa [Nat.add_assoc] using this

/-- Splitting the engine walk at an error-free front of the climb path. -/
lemma runPath_append_ok (as bs : List NodeM) (ctx : Ctx) (d : Nat) (as2 : List NodeM) (c1 : Ctx)
    (h : runPath as ctx = (d, none, as2, c1))
    (d2 : Nat) (e2 : Option Int) (bs2 : List NodeM) (c2 : Ctx)
    (h2 : runPath bs c1 = (d2, e2, bs2, c2)) :
    runPath (as ++ bs) ctx = (d + d2, e2, as2 ++ bs2, c2) := by
  induction as generalizing ctx d as2 c1 with
  | nil =>
    rw [runPath_nil] at h
    obtain ⟨rfl, rfl, rfl⟩ : d = 0 ∧ as2 = [] ∧ c1 = ctx := by simpa using h.symm
    simpa using h2
  | cons a as ih =>
    rcases hg : runEffects a.effects { ctx with origin := a.attr.ino } with ⟨dg, eg, esg, cg⟩
    cases eg with
    | some err =>
      rw [runPath_cons_error a as ctx dg err esg cg hg] at h
      simp at h
    | none =>
      rcases hr : runPath as cg with ⟨d', e', rest', c'⟩
      rw [runPath_cons_ok a as ctx dg esg cg hg d' e' rest' c' hr] at h
      obtain ⟨rfl, rfl, rfl, rfl⟩ :
          d = dg + d' ∧ (none : Option Int) = e' ∧ as2 = { a with effects := esg } :: rest' ∧ c1 = c' := by
        simpa using h.symm
      have := runPath_cons_ok a (as ++ bs) ctx dg esg cg hg _ _ _ _ (ih _ _ _ _ hr h2)
      simpa [Nat.add_assoc] using this

/-- Claim C3: for every climb path and insertion-ordered effect lists, if
the walk reaches a defined effect whose apply returns Error(e) — the
nodes before it and the effects before it on its own node all evaluating
without error — then run returns exactly (d, Some(e)) with d the sum of
the delays accumulated before the error (the prefix delays d1 and dp; an
error frame itself contributes no delay), and nothing after the erroring
effect is evaluated: the remaining effects es2 of the same node and the
strict-ancestor nodes ns2 appear in the output verbatim, their internal
state untouched. -/
theorem c3_error_short_circuit
    (ns₁ ns₂ : List NodeM) (n : NodeM) (es₁ es₂ : List DefinedEffectM)
    (de : DefinedEffectM) (ctx ctx₁ ctxp ctx₂ : Ctx) (d₁ dp : Nat)
    (ns₁' : List NodeM) (es₁' : List DefinedEffectM) (e : Int) (ef' : EffectM)
    (h₁ : runPath ns₁ ctx = (d₁, none, ns₁', ctx₁))
    (hn : n.effects = es₁ ++ de :: es₂)
    (h₂ : runEffects es₁ { ctx₁ with origin := n.attr.ino } = (dp, none, es₁', ctxp))
    (hop : (ctxp.op.optype.inter de.op).isEmpty = false)
    (happ : de.effect.apply ctxp = (.error e, ef', ctx₂)) :
    runPath (ns₁ ++ n :: ns₂) ctx
      = (d₁ + dp, some e,
         ns₁' ++ ({ n with effects := es₁' ++ { de with effect := ef' } :: es₂ } :: ns₂),
         ctx₂) := by
  have hde : runEffects (de :: es₂) ctxp
      = (0, some e, { de with effect := ef' } :: es₂, ctx₂) :=
    runEffects_cons_error de es₂ ctxp hop e ef' ctx₂ happ
  have hgroup : runEffects (es₁ ++ de :: es₂) { ctx₁ with origin := n.attr.ino }
      = (dp + 0, some e, es₁' ++ { de with effect := ef' } :: es₂, ctx₂) :=
    runEffects_append_ok es₁ (de :: es₂) _ dp es₁' ctxp h₂ 0 (some e) _ ctx₂ hde
  have hnode : runPath (n :: ns₂) ctx₁
      = (dp + 0, some e,
         { n with effects := es₁' ++ { de with effect := ef' } :: es₂ } :: ns₂, ctx₂) :=
    runPath_cons_error n ns₂ ctx₁ (dp + 0) e _ ctx₂ (by rw [hn]; exact hgroup)
  have := runPath_append_ok ns₁ (n :: ns₂) ctx d₁ ns₁' ctx₁ h₁ (dp + 0) (some e) _ ctx₂ hnode
  simpa using this

/-- A fixed RNG stream for concrete engine scenarios: every f32 draw is
one half. -/
def rngHalf : Nat → Rat := fun _ => (1 : Rat) / 2

/-- A write-filtered 3 ms delay effect. -/
def deD3 : DefinedEffectM := ⟨"delay", .delay 3, ⟨true, true, false, false⟩⟩

/-- A write-filtered 7 ms delay effect. -/
def deD7 : DefinedEffectM := ⟨"delay", .delay 7, ⟨false, true, false, false⟩⟩

/-- A write-filtered 100 ms delay effect. -/
def deD100 : DefinedEffectM := ⟨"delay", .delay 100, ⟨false, true, false, false⟩⟩

/-- A write-filtered interval Flakey (avail 5 ms, unavail 10 ms, errno
13): it fires whenever now_ms mod 15 is at most 5. -/
def deFk : DefinedEffectM := ⟨"flakey", .flakey (.interval 5 10) 13, ⟨false, true, false, false⟩⟩

/-- A write-filtered Quota with counter state 0. -/
def deQ : DefinedEffectM := ⟨"quota", .quota 10 1 0, ⟨false, true, false, false⟩⟩

/-- Concrete target file node (ino 2) carrying one delay effect. -/
def wDelayNode : NodeM :=
  { parent := 1, attr := freshAttr 2 FKind.regular 0 0 1000 1001 0,
    item := NodeItemM.file [] FileStatsM.zero, effects := [deD7] }

/-- Concrete parent directory node (ino 1) whose second effect errors. -/
def wErrNode : NodeM :=
  { parent := 1, attr := freshAttr 1 FKind.dir 0 0 1000 1001 0,
    item := NodeItemM.dir [], effects := [deD3, deFk, deD100] }

/-- Concrete grandparent node (ino 0) carrying a stateful Quota effect
that must remain untouched after the error below it. -/
def wAfterNode : NodeM :=
  { parent := 0, attr := freshAttr 0 FKind.dir 0 0 1000 1001 0,
    item := NodeItemM.dir [], effects := [deQ] }

/-- Concrete engine context for a write of 4 bytes at offset 0 on ino 2. -/
def wCtx : Ctx :=
  { op := .write 0 4, origin := 2, target := 2, tree := baseTree,
    rng := rngHalf, rngIdx := 0, now_ms := 3 }

theorem c3_error_short_circuit_witness :
    runPath [wDelayNode, wErrNode, wAfterNode] wCtx
      = (10, some 13,
         [wDelayNode, { wErrNode with effects := [deD3, deFk, deD100] }, wAfterNode],
         { wCtx with origin := 1 }) := by
  exact c3_error_short_circuit [wDelayNode] [wAfterNode] wErrNode [deD3] [deD100] deFk
    wCtx { wCtx with origin := 2 } { wCtx with origin := 1 }
    { wCtx with origin := 1 } 7 3 [wDelayNode] [deD3] 13
    (.flakey (.interval 5 10) 13) rfl rfl rfl rfl rfl

lemma inter_empty_isEmpty (x : OpTypeM) : (x.inter OpTypeM.empty).isEmpty = true := by
  rcases x with ⟨r, w, l, m⟩
  simp [OpTypeM.inter, OpTypeM.isEmpty, OpTypeM.empty]

/-- Inserting an effect with empty op set anywhere in a group changes
nothing about the evaluation: the outputs agree and the inserted effect
reappears verbatim at its position. -/
lemma runEffects_skip_middle (es₁ es₂ : List DefinedEffectM) (de : DefinedEffectM)
    (ctx : Ctx) (hop : de.op = OpTypeM.empty) :
    ∃ d e l₁ l₂ c,
      runEffects (es₁ ++ es₂) ctx = (d, e, l₁ ++ l₂, c) ∧
      runEffects (es₁ ++ de :: es₂) ctx = (d, e, l₁ ++ de :: l₂, c) ∧
      l₁.length = es₁.length := by
  induction es₁ generalizing ctx with
  | nil =>
    rcases h2 : runEffects es₂ ctx with ⟨d, e, l₂, c⟩
    refine ⟨d, e, [], l₂, c, by simpa using h2, ?_, rfl⟩
    exact runEffects_cons_skip de es₂ ctx (by rw [hop]; exact inter_empty_isEmpty _)
      d e l₂ c h2
  | cons a as ih =>
    by_cases hs : (ctx.op.optype.inter a.op).isEmpty
    · rcases ih ctx with ⟨d, e, l₁, l₂, c, hA, hB, hlen⟩
      exact ⟨d, e, a :: l₁, l₂, c,
        runEffects_cons_skip a (as ++ es₂) ctx hs d e (l₁ ++ l₂) c hA,
        runEffects_cons_skip a (as ++ de :: es₂) ctx hs d e (l₁ ++ de :: l₂) c hB,
        by simpa using hlen⟩
    · rcases ha : a.effect.apply ctx with ⟨res, ef2, ca⟩
      cases res with
      | ack =>
        rcases ih ca with ⟨d, e, l₁, l₂, c, hA, hB, hlen⟩
        exact ⟨d, e, { a with effect := ef2 } :: l₁, l₂, c,
          runEffects_cons_ack a (as ++ es₂) ctx (by simpa using hs) ef2 ca ha d e _ c hA,
          runEffects_cons_ack a (as ++ de :: es₂) ctx (by simpa using hs) ef2 ca ha d e _ c hB,
          by simpa using hlen⟩
      | error errno =>
        exact ⟨0, some errno, { a with effect := ef2 } :: as, es₂, ca,
          runEffects_cons_error a (as ++ es₂) ctx (by simpa using hs) errno ef2 ca ha,
          runEffects_cons_error a (as ++ de :: es₂) ctx (by simpa using hs) errno ef2 ca ha,
          by simp⟩
      | delay ms =>
        rcases ih ca with ⟨d, e, l₁, l₂, c, hA, hB, hlen⟩
        exact ⟨ms + d, e, { a with effect := ef2 } :: l₁, l₂, c,
          runEffects_cons_delay a (as ++ es₂) ctx (by simpa using hs) ms ef2 ca ha d e _ c hA,
          runEffects_cons_delay a (as ++ de :: es₂) ctx (by simpa using hs) ms ef2 ca ha d e _ c hB,
          by simpa using hlen⟩

/-- Claim C10: parsing the empty op string succeeds with the empty OpSet
(no EINVAL), and a defined effect whose op set is empty is skipped by the
engine on every request: wherever it sits on the climb path, the walk
returns the same delay, error and context as if it were absent, every
other effect is updated identically, and the empty-op effect itself
reappears verbatim (its apply is never called, since the empty set has
empty intersection with every request op type). -/
theorem c10_empty_opset_skipped :
    OpTypeM.fromStr "" = .ok OpTypeM.empty ∧
    ∀ (ns₁ ns₂ : List NodeM) (n : NodeM) (es₁ es₂ : List DefinedEffectM)
      (de : DefinedEffectM) (ctx : Ctx), de.op = OpTypeM.empty →
      ∃ d e ns₁' l₁ l₂ ns₂' c,
        runPath (ns₁ ++ { n with effects := es₁ ++ es₂ } :: ns₂) ctx
          = (d, e, ns₁' ++ { n with effects := l₁ ++ l₂ } :: ns₂', c) ∧
        runPath (ns₁ ++ { n with effects := es₁ ++ de :: es₂ } :: ns₂) ctx
          = (d, e, ns₁' ++ { n with effects := l₁ ++ de :: l₂ } :: ns₂', c) ∧
        l₁.length = es₁.length := by
  refine ⟨rfl, ?_⟩
  intro ns₁ ns₂ n es₁ es₂ de ctx hop
  induction ns₁ generalizing ctx with
  | nil =>
    rcases runEffects_skip_middle es₁ es₂ de { ctx with origin := n.attr.ino } hop
      with ⟨d, e, l₁, l₂, c, hA, hB, hlen⟩
    cases e with
    | some err =>
      exact ⟨d, some err, [], l₁, l₂, ns₂, c,
        runPath_cons_error { n with effects := es₁ ++ es₂ } ns₂ ctx d err _ c hA,
        runPath_cons_error { n with effects := es₁ ++ de :: es₂ } ns₂ ctx d err _ c hB,
        hlen⟩
    | none =>
      rcases hr : runPath ns₂ c with ⟨d2, e2, rest2, c2⟩
      exact ⟨d + d2, e2, [], l₁, l₂, rest2, c2,
        runPath_cons_ok { n with effects := es₁ ++ es₂ } ns₂ ctx d _ c hA d2 e2 rest2 c2 hr,
        runPath_cons_ok { n with effects := es₁ ++ de :: es₂ } ns₂ ctx d _ c hB d2 e2 rest2 c2 hr,
        hlen⟩
  | cons m ms ih =>
    rcases hm : runEffects m.effects { ctx with origin := m.attr.ino } with ⟨dm, em, esm, cm⟩
    cases em with
    | some err =>
      exact ⟨dm, some err, { m with effects := esm } :: ms, es₁, es₂, ns₂, cm,
        runPath_cons_error m (ms ++ { n with effects := es₁ ++ es₂ } :: ns₂) ctx dm err esm cm hm,
        runPath_cons_error m (ms ++ { n with effects := es₁ ++ de :: es₂ } :: ns₂) ctx dm err esm cm hm,
        rfl⟩
    | none =>
      rcases ih cm with ⟨d, e, ns₁', l₁, l₂, ns₂', c, hA, hB, hlen⟩
      exact ⟨dm + d, e, { m with effects := esm } :: ns₁', l₁, l₂, ns₂', c,
        runPath_cons_ok m (ms ++ { n with effects := es₁ ++ es₂ } :: ns₂) ctx dm esm cm hm d e _ c hA,
        runPath_cons_ok m (ms ++ { n with effects := es₁ ++ de :: es₂ } :: ns₂) ctx dm esm cm hm d e _ c hB,
        hlen⟩

/-- A quota effect whose op set is empty, for the C10 witness. -/
def deQEmpty : DefinedEffectM := ⟨"quota", .quota 10 1 0, OpTypeM.empty⟩

theorem c10_empty_opset_skipped_witness :
    OpTypeM.fromStr "" = .ok OpTypeM.empty ∧
    ∃ d e ns₁' l₁ l₂ ns₂' c,
      runPath ([] ++ { wDelayNode with effects := [] ++ [deD7] } :: []) wCtx
        = (d, e, ns₁' ++ { wDelayNode with effects := l₁ ++ l₂ } :: ns₂', c) ∧
      runPath ([] ++ { wDelayNode with effects := [] ++ deQEmpty :: [deD7] } :: []) wCtx
        = (d, e, ns₁' ++ { wDelayNode with effects := l₁ ++ deQEmpty :: l₂ } :: ns₂', c) ∧
      l₁.length = ([] : List DefinedEffectM).length :=
  ⟨c10_empty_opset_skipped.1,
   c10_empty_opset_skipped.2 [] [] wDelayNode [] [deD7] deQEmpty wCtx rfl⟩

/-- The tree after creating the file "a" under the root directory 1: the
file gets ino 2 and the slab holds three present slots. -/
def c1tree : TreeM := (createNodeFS baseTree 1 "a" NodeCreateTM.fileT 10).2

/-- The tree after the final unlink of "a" (nlink 1 to 0). -/
def c1after : TreeM :=
  match c1tree.unlink 1 "a" 11 with
  | .ok (_, t) => t
  | _ => baseTree

/-- Claim C1: creating file "a" (ino 2) under the root and then unlinking
it drives nlink to 0 and vacates slot 2 — but Tree::unlink never pushes
the vacated index onto the free-list, which stays empty.  The free-list
thus does NOT contain exactly the indices of the empty slots (slot 2 is
empty, 2 is not on the list), refuting the claimed invariant on a state
reachable in two public operations. -/
theorem c1_unlink_leaks_freelist :
    createNodeFS baseTree 1 "a" NodeCreateTM.fileT 10 = (.ok 2, c1tree) ∧
    c1tree.unlink 1 "a" 11 = .ok (some (), c1after) ∧
    c1after.slot 2 = none ∧
    c1after.freelist = [] :=
  ⟨rfl, rfl, rfl, rfl⟩

/-- The attr.size of a slot, when present. -/
def dirSizeAt (t : TreeM) (i : Nat) : Option Nat :=
  (t.slot i).map (fun (n : NodeM) => n.attr.size)

/-- The number of directory entries of a slot, when it is a directory. -/
def dirEntryCountAt (t : TreeM) (i : Nat) : Option Nat :=
  match t.slot i with
  | some n =>
    match n.item with
    | .dir cs => some cs.length
    | _ => none
  | none => none

/-- The tree after an unlink whose name is not found: Tree::unlink
decrements the directory size before looking the name up and keeps that
mutation when it returns None. -/
def c5after : TreeM :=
  match c1tree.unlink 1 "b" 11 with
  | .ok (_, t) => t
  | _ => baseTree

/-- Claim C5: with the root directory holding exactly the entry "a"
(size 1), the failing unlink(1, "b") returns None but has already
decremented the directory size, leaving size 0 against 1 entry — the
directory-size invariant breaks on a failing unlink. -/
theorem c5_failed_unlink_skews_size :
    dirSizeAt c1tree 1 = some 1 ∧
    dirEntryCountAt c1tree 1 = some 1 ∧
    c1tree.unlink 1 "b" 11 = .ok (none, c5after) ∧
    dirSizeAt c5after 1 = some 0 ∧
    dirEntryCountAt c5after 1 = some 1 :=
  ⟨rfl, rfl, rfl, rfl, rfl⟩

/-- Claim C8: renaming a name that is absent from the (present, directory)
old parent aborts the process at dir.add(ino.unwrap(), ...) instead of
returning None: on the tree whose root 1 holds only "a", the rename of
"b" panics in Tree::rename and hence in the TestFS::rename dispatcher,
whose None-to-ENOENT arm is unreachable. -/
theorem c8_rename_panics_on_missing_name :
    dirEntryCountAt c1tree 1 = some 1 ∧
    TreeM.rename c1tree 1 "b" 1 "c" 12 = .panicked ∧
    renameFS c1tree 1 "b" 1 "c" 12 = .panicked :=
  ⟨rfl, rfl, rfl⟩

/-- A well-formed delay configuration value. -/
def delayJson : JVal :=
  JVal.jobj [("op", JVal.jstr "W"), ("duration_ms", JVal.jint 50)]

/-- A well-formed quota configuration value (spec section 6 grammar). -/
def quotaJson : JVal :=
  JVal.jobj [("op", JVal.jstr "W"), ("volume", JVal.jint 100), ("align", JVal.jint 4)]

/-- A well-formed heatmap configuration value (spec section 6 grammar). -/
def heatmapJson : JVal :=
  JVal.jobj [("op", JVal.jstr "R"), ("align", JVal.jint 16)]

/-- The tree after a successful setxattr of bf.effect.delay on ino 2. -/
def c4after : TreeM :=
  match xaSet c1tree 2 "bf.effect.delay" (some delayJson) with
  | .ok t => t
  | _ => c1tree

/-- Claim C4: setting bf.effect.delay with a well-formed value succeeds
(the effect lands in the node group), but setting bf.effect.quota or
bf.effect.heatmap with the grammar-conformant values aborts the process:
DefinedEffect::create knows only delay, flakey and maxsize, returns
Err(EINVAL), and xaops.rs set unwraps that error.  An unknown kind
aborts the same way, and a malformed JSON value aborts inside create
itself — no EINVAL ever reaches the caller and the no-panic guarantee
fails. -/
theorem c4_setxattr_panics :
    xaSet c1tree 2 "bf.effect.delay" (some delayJson) = .ok c4after ∧
    (c4after.slot 2).map (fun (n : NodeM) => n.effects)
      = some [⟨"delay", .delay 50, ⟨false, true, false, false⟩⟩] ∧
    xaSet c1tree 2 "bf.effect.quota" (some quotaJson) = .panicked ∧
    xaSet c1tree 2 "bf.effect.heatmap" (some heatmapJson) = .panicked ∧
    xaSet c1tree 2 "bf.effect.bogus" (some delayJson) = .panicked ∧
    xaSet c1tree 2 "bf.effect.delay" none = .panicked :=
  ⟨rfl, rfl, rfl, rfl, rfl, rfl⟩

/-- A tree holding one directory (ino 1) with one regular file "f"
(ino 2) of size 5. -/
def c2tree : TreeM :=
  { nodes := [none,
      some { parent := 1, attr := freshAttr 1 FKind.dir 0 0 1000 1001 0,
             item := NodeItemM.dir [(2, "f")], effects := [] },
      some { parent := 1, attr := { freshAttr 2 FKind.regular 0 0 1000 1001 0 with size := 5 },
             item := NodeItemM.file [0, 0, 0, 0, 0] FileStatsM.zero, effects := [] }],
    freelist := [] }

/-- A write of 5 bytes at offset 0 on the size-5 file: offset + len
equals the file size, so the claimed need_grow = max(0, offset + len −
size) is 0. -/
def c2ctx : Ctx :=
  { op := .write 0 5, origin := 1, target := 2, tree := c2tree,
    rng := rngHalf, rngIdx := 0, now_ms := 0 }

/-- Claim C2, counterexample: offset + len equals the target size (so
need_grow as the claim computes it is 0), yet MaxSize::apply with limit 0
returns Error(ENOSPC), not Ack: the code early-returns only when
offset + len is strictly BELOW the size (need_grow < 0) and otherwise
still runs the subtree check, which fails because the subtree already
holds 5 bytes against the limit 0. -/
theorem c2_maxsize_counterexample :
    c2ctx.op = OpDesr.write 0 5 ∧
    targetSize c2ctx.tree c2ctx.target = 5 ∧
    subtreeRegularTotal c2ctx.tree c2ctx.origin = 5 ∧
    (EffectM.maxsize 0).apply c2ctx = (.error ENOSPC, .maxsize 0, c2ctx) :=
  ⟨rfl, rfl, rfl, rfl⟩

/-- Claim C2, amended: MaxSize::apply acknowledges a write regardless of
the limit and of the subtree total whenever offset + len is strictly
smaller than the target size (need_grow negative); at offset + len equal
to the size the subtree check still runs and may return ENOSPC. -/
theorem c2_maxsize_no_grow_ack (limit : Nat) (ctx : Ctx) (offset len : Nat)
    (hop : ctx.op = OpDesr.write offset len)
    (hlt : offset + len < targetSize ctx.tree ctx.target) :
    (EffectM.maxsize limit).apply ctx = (.ack, .maxsize limit, ctx) := by
  have hneg : ((offset + len : Nat) : Int) - (targetSize ctx.tree ctx.target : Int) < 0 := by
    omega
  simp only [EffectM.apply, hop]
  rw [if_pos hneg]

/-- A write of 3 bytes at offset 0 on the size-5 file. -/
def c2ctxW : Ctx :=
  { op := .write 0 3, origin := 1, target := 2, tree := c2tree,
    rng := rngHalf, rngIdx := 0, now_ms := 0 }

theorem c2_maxsize_no_grow_ack_witness :
    (EffectM.maxsize 0).apply c2ctxW = (.ack, .maxsize 0, c2ctxW) :=
  c2_maxsize_no_grow_ack 0 c2ctxW 0 3 rfl (by decide)

/-- The number of present slots among indices 0..i. -/
def TreeM.countUpTo (t : TreeM) (i : Nat) : Nat :=
  List.countP (fun j => (t.slot j).isSome) (List.range (i + 1))

lemma climbAux_none (t : TreeM) (fuel : Nat) : t.climbAux fuel none = [] := by
  cases fuel <;> rfl

lemma countP_range_le (l : List (Option NodeM)) (N : Nat) :
    List.countP (fun j => (l.getD j none).isSome) (List.range N)
      ≤ List.countP Option.isSome l := by
  induction l generalizing N with
  | nil =>
    have hz : List.countP (fun j => ((List.nil (α := Option NodeM)).getD j none).isSome)
        (List.range N) = 0 := by
      rw [List.countP_eq_zero]
      intro a _
      rw [List.getD_eq_default]
      · simp
      · simp
    simp [hz]
  | cons a tl ih =>
    cases N with
    | zero => simp
    | succ m =>
      rw [List.range_succ_eq_map, List.countP_cons, List.countP_map, List.countP_cons]
      have hcomp : ((fun j => ((a :: tl).getD j none).isSome) ∘ Nat.succ)
          = fun j => (tl.getD j none).isSome := by
        funext j
        simp
      rw [hcomp]
      have h0 : ((a :: tl).getD 0 none).isSome = a.isSome := by simp
      simp only [h0]
      exact Nat.add_le_add (ih m) (le_refl _)

lemma countUpTo_le_count (t : TreeM) (i : Nat) : t.countUpTo i ≤ t.count := by
  have h := countP_range_le t.nodes (i + 1)
  have hc : t.count = List.countP Option.isSome t.nodes := by
    rw [TreeM.count, List.countP_eq_length_filter]
  rw [TreeM.countUpTo, hc]
  simpa [TreeM.slot] using h

lemma countUpTo_succ (t : TreeM) (k : Nat) :
    t.countUpTo (k + 1) = t.countUpTo k + (if (t.slot (k + 1)).isSome then 1 else 0) := by
  rw [TreeM.countUpTo, TreeM.countUpTo, List.range_succ, List.countP_append]
  simp [List.countP_cons]

lemma countUpTo_mono (t : TreeM) (p q : Nat) (h : p ≤ q) :
    t.countUpTo p ≤ t.countUpTo q := by
  induction q with
  | zero =>
    obtain rfl : p = 0 := Nat.le_zero.mp h
    exact le_refl _
  | succ m ih =>
    rcases Nat.lt_or_ge p (m + 1) with hlt | hge
    · have := ih (Nat.lt_succ_iff.mp hlt)
      rw [countUpTo_succ]
      omega
    · obtain rfl : p = m + 1 := Nat.le_antisymm h hge
      exact le_refl _

lemma countUpTo_pos (t : TreeM) (i : Nat) (h : (t.slot i).isSome) : 1 ≤ t.countUpTo i := by
  cases i with
  | zero =>
    rw [TreeM.countUpTo]
    have hr : List.range 1 = [0] := by
      rw [List.range_succ, List.range_zero]
      simp
    rw [hr, List.countP_cons]
    simp [h]
  | succ k =>
    rw [countUpTo_succ]
    simp [h]

lemma countUpTo_step (t : TreeM) (i p : Nat) (hp : p < i) (h : (t.slot i).isSome) :
    t.countUpTo p + 1 ≤ t.countUpTo i := by
  obtain ⟨k, rfl⟩ : ∃ k, i = k + 1 := ⟨i - 1, by omega⟩
  rw [countUpTo_succ]
  have := countUpTo_mono t p k (by omega)
  simp only [h, if_pos]
  omega

/-- On a tree whose present nodes all have parent index at most their own
index, the climb from i yields at most as many nodes as there are present
slots up to i, whatever the fuel: the chain of visited indices strictly
decreases. -/
lemma climb_len_le_countUpTo (t : TreeM)
    (hinv : ∀ i n, t.slot i = some n → n.parent ≤ i) :
    ∀ i fuel, (t.climbAux fuel (some i)).length ≤ t.countUpTo i := by
  intro i
  induction i using Nat.strong_induction_on with
  | _ i ih =>
    intro fuel
    cases fuel with
    | zero => simp [TreeM.climbAux]
    | succ f =>
      cases hslot : t.slot i with
      | none => simp [TreeM.climbAux, hslot]
      | some n =>
        have hpar := hinv i n hslot
        by_cases hpi : n.parent = i
        · have hcl : t.climbAux (f + 1) (some i) = [n] := by
            simp [TreeM.climbAux, hslot, hpi, climbAux_none]
          rw [hcl]
          simpa using countUpTo_pos t i (by simp [hslot])
        · have hlt : n.parent < i := lt_of_le_of_ne hpar hpi
          have hrec := ih n.parent hlt f
          have hcl : t.climbAux (f + 1) (some i) = n :: t.climbAux f (some n.parent) := by
            simp [TreeM.climbAux, hslot, hpi]
          rw [hcl]
          have hstep := countUpTo_step t i n.parent hlt (by simp [hslot])
          simp only [List.length_cons]
          omega

/-- Claim C7, amended: on every tree whose present nodes point to a
parent index no larger than their own — which holds for every state
reachable by create, link and unlink alone, since create always allocates
a fresh top index and only the rename dispatcher ever rewrites a parent
pointer — climb(ino) terminates yielding at most tree.count() nodes: the
list of yields under any fuel bound never exceeds count. -/
theorem c7_climb_terminates_bounded (t : TreeM)
    (hinv : ∀ i n, t.slot i = some n → n.parent ≤ i) (ino fuel : Nat) :
    (t.climbAux fuel (some ino)).length ≤ t.count :=
  le_trans (climb_len_le_countUpTo t hinv ino fuel) (countUpTo_le_count t ino)

theorem c7_climb_terminates_bounded_witness :
    (baseTree.climbAux 5 (some 1)).length ≤ baseTree.count := by
  refine c7_climb_terminates_bounded baseTree ?_ 1 5
  intro i n h
  match i, h with
  | 0, h =>
    have hn : n = { parent := 0, attr := freshAttr 0 FKind.dir 0 0 1000 1001 0,
                    item := NodeItemM.dir [], effects := [] } := by
      have h' := h
      simp [baseTree, TreeM.slot] at h'
      exact h'.symm
    rw [hn]
  | 1, h =>
    have hn : n = { parent := 1, attr := freshAttr 1 FKind.dir 0 0o754 1000 1001 0,
                    item := NodeItemM.dir [], effects := [] } := by
      have h' := h
      simp [baseTree, TreeM.slot] at h'
      exact h'.symm
    rw [hn]
  | (k + 2), h =>
    have hlen : baseTree.nodes.length ≤ k + 2 := by
      simp [baseTree]
    rw [TreeM.slot, List.getD_eq_default _ _ hlen] at h
    cases h

/-- The initial mounted state. -/
def sInit : SysState :=
  { tree := baseTree, rng := rngHalf, rngIdx := 0, now := 1, dead := false }

/-- A request sequence the dispatcher accepts without error: make
directories a (ino 2) and b (ino 3) under the root, move a under b, then
move b under a.  The two renames rewire the parent pointers 2 -> 3 and
3 -> 2 into a cycle. -/
def c7ops : List FsOp :=
  [.mkdirO 1 "a", .mkdirO 1 "b", .renameO 1 "a" 3 "a2", .renameO 1 "b" 2 "b2"]

/-- The reachable cyclic tree. -/
def c7tree : TreeM := (applyOps sInit c7ops).tree

/-- Claim C7, counterexample: after the reachable rename sequence above
(no panic, four present slots), the climb iterator from ino 2 cycles
between slots 2 and 3: within count + 1 steps it has already yielded
count + 1 nodes, so climb(2) does not terminate after at most count
yields — the claimed bound fails on a rename-reachable state. -/
theorem c7_climb_cycle_counterexample :
    (applyOps sInit c7ops).dead = false ∧
    c7tree.count = 4 ∧
    (c7tree.slot 2).map (fun (n : NodeM) => n.parent) = some 3 ∧
    (c7tree.slot 3).map (fun (n : NodeM) => n.parent) = some 2 ∧
    (c7tree.climbAux (c7tree.count + 1) (some 2)).length = c7tree.count + 1 :=
  ⟨rfl, rfl, rfl, rfl, rfl⟩

/-- A defined effect as DefinedEffect::create builds them: the stored
name is the canonical kind name of its effect, and the kind is one of
the three the registry knows. -/
def DEcanonical (de : DefinedEffectM) : Prop :=
  match de.effect with
  | .delay _ => de.name = "delay"
  | .flakey _ _ => de.name = "flakey"
  | .maxsize _ => de.name = "maxsize"
  | _ => False

/-- Modelled from the spec: the round-trip law of section 8 re-parses
each serialized group entry through DefinedEffect::create; the kind name
handed to create is the serialized name field of the entry (the name the
operator would use in bf.effect.<kind>). -/
def reparseEntry (v : JVal) : OpOut DefinedEffectM :=
  match v with
  | .jobj fields =>
    match (jlookup fields "name").bind jAsStr with
    | some nm => DefinedEffectM.create nm (some v)
    | none => .errno EINVAL
  | _ => .errno EINVAL

/-- Re-parse every serialized entry of a group in order, propagating the
first failure. -/
def parseGroup : List JVal → OpOut (List DefinedEffectM)
  | [] => .ok []
  | v :: rest =>
    match reparseEntry v with
    | .ok de =>
      match parseGroup rest with
      | .ok des => .ok (de :: des)
      | .errno e => .errno e
      | .panicked => .panicked
    | .errno e => .errno e
    | .panicked => .panicked

lemma fromStr_fmt (t : OpTypeM) : OpTypeM.fromStr t.fmt = .ok t := by
  rcases t with ⟨r, w, l, m⟩
  cases r <;> cases w <;> cases l <;> cases m <;> rfl

lemma jAsU64_natCast (n : Nat) : jAsU64 (JVal.jint (n : Int)) = some n := by
  simp [jAsU64]

/-- One canonical delay, flakey or maxsize defined effect serializes and
re-parses to itself. -/
lemma roundtrip_de (de : DefinedEffectM) (h : DEcanonical de) :
    ∃ v, de.serialize = some v ∧ reparseEntry v = .ok de := by
  rcases de with ⟨nm, eff, op⟩
  cases eff with
  | delay d =>
    obtain rfl : nm = "delay" := h
    refine ⟨_, rfl, ?_⟩
    simp [reparseEntry, DefinedEffectM.serialize, EffectM.serializeFields, jlookup, jAsStr,
      DefinedEffectM.create, jremove, untilDash, fromStr_fmt, parseDelayFields,
      jAsU64_natCast]
  | flakey cond errno =>
    obtain rfl : nm = "flakey" := h
    cases cond with
    | prob p =>
      refine ⟨_, rfl, ?_⟩
      simp [reparseEntry, DefinedEffectM.serialize, EffectM.serializeFields, jlookup, jAsStr,
        DefinedEffectM.create, jremove, untilDash, fromStr_fmt, parseFlakeyFields,
        jAsF32, jAsI32]
    | interval a u =>
      refine ⟨_, rfl, ?_⟩
      simp [reparseEntry, DefinedEffectM.serialize, EffectM.serializeFields, jlookup, jAsStr,
        DefinedEffectM.create, jremove, untilDash, fromStr_fmt, parseFlakeyFields,
        jAsF32, jAsI32, jAsU64_natCast]
  | maxsize limit =>
    obtain rfl : nm = "maxsize" := h
    refine ⟨_, rfl, ?_⟩
    simp [reparseEntry, DefinedEffectM.serialize, EffectM.serializeFields, jlookup, jAsStr,
      DefinedEffectM.create, jremove, untilDash, fromStr_fmt, parseMaxSizeFields,
      jAsU64_natCast]
  | heatmap align values => exact absurd h (by simp [DEcanonical])
  | quota volume align current => exact absurd h (by simp [DEcanonical])

lemma serialize_parse_group (g : List DefinedEffectM) (h : ∀ de ∈ g, DEcanonical de) :
    ∃ vs, serializeGroup g = some vs ∧ parseGroup vs = .ok g := by
  induction g with
  | nil => exact ⟨[], rfl, rfl⟩
  | cons de g ih =>
    obtain ⟨v, hser, hrep⟩ := roundtrip_de de (h de (List.mem_cons_self de g))
    obtain ⟨vs, hsg, hpg⟩ := ih (fun x hx => h x (List.mem_cons_of_mem de hx))
    refine ⟨v :: vs, ?_, ?_⟩
    · simp [serializeGroup, hser, hsg]
    · simp [parseGroup, hrep, hpg]

/-- Claim C6, amended: for every group of delay, flakey and maxsize
effects carrying their canonical names — the three kinds the registry
parses and serialize_box serializes; every group the system itself builds
is of this shape — serializing the group and re-parsing each entry
through DefinedEffect::create reproduces the group field-wise (name, op
set, configuration), and serializing the re-parsed group yields the same
JSON again (serialization is idempotent across the round trip). -/
theorem c6_group_roundtrip (g : List DefinedEffectM) (h : ∀ de ∈ g, DEcanonical de) :
    ∃ vs, serializeGroup g = some vs ∧ parseGroup vs = .ok g ∧
      ∀ g2, parseGroup vs = .ok g2 → serializeGroup g2 = some vs := by
  obtain ⟨vs, h1, h2⟩ := serialize_parse_group g h
  refine ⟨vs, h1, h2, ?_⟩
  intro g2 hg2
  rw [h2] at hg2
  cases hg2
  exact h1

/-- A canonical maxsize effect for the C6 witness. -/
def deMx : DefinedEffectM := ⟨"maxsize", .maxsize 1024, ⟨false, true, false, false⟩⟩

theorem c6_group_roundtrip_witness :
    ∃ vs, serializeGroup [deD7, deFk, deMx] = some vs ∧
      parseGroup vs = .ok [deD7, deFk, deMx] ∧
      ∀ g2, parseGroup vs = .ok g2 → serializeGroup g2 = some vs := by
  refine c6_group_roundtrip [deD7, deFk, deMx] ?_
  intro de hde
  simp only [List.mem_cons, List.not_mem_nil, or_false] at hde
  rcases hde with rfl | rfl | rfl
  · simp [DEcanonical, deD7]
  · simp [DEcanonical, deFk]
  · simp [DEcanonical, deMx]

/-- Claim C6, counterexample: a group holding a quota effect — one of the
four kinds the claim covers — cannot be serialized at all (serialize_box
reaches its abort arm, modelled as none), and even a grammar-conformant
quota configuration is refused by DefinedEffect::create with EINVAL, so
parse(serialize(G)) = G fails for every quota-bearing group. -/
theorem c6_quota_breaks_roundtrip :
    serializeGroup [⟨"quota", .quota 100 4 0, ⟨false, true, false, false⟩⟩] = none ∧
    DefinedEffectM.create "quota" (some quotaJson) = .errno EINVAL :=
  ⟨rfl, rfl⟩

/-- The errors counter a slot carries: the stats.errors of a file slot,
0 for anything else. -/
def errsOf : Option NodeM → Nat
  | some n =>
    match n.item with
    | .file _ st => st.errors
    | _ => 0
  | none => 0

/-- The errors counter at index i of a slab. -/
def errsAt (l : List (Option NodeM)) (i : Nat) : Nat :=
  errsOf (l.getD i none)

/-- Every file slot of the slab reports errors = 0. -/
def errorsOk (l : List (Option NodeM)) : Prop :=
  ∀ i, errsAt l i = 0

lemma errsOf_none : errsOf none = 0 := rfl

lemma errorsOk_set (l : List (Option NodeM)) (j : Nat) (v : Option NodeM)
    (hv : errsOf v = 0) (h : errorsOk l) : errorsOk (l.set j v) := by
  intro i
  rw [errsAt, List.getD_eq_getElem?_getD, List.getElem?_set]
  by_cases hji : j = i
  · subst hji
    by_cases hlt : j < l.length
    · simpa [hlt] using hv
    · simp [hlt, errsOf]
  · have := h i
    rw [errsAt, List.getD_eq_getElem?_getD] at this
    simpa [hji] using this

lemma errorsOk_append_none (l : List (Option NodeM)) (h : errorsOk l) :
    errorsOk (l ++ [none]) := by
  intro i
  rw [errsAt, List.getD_eq_getElem?_getD, List.getElem?_append]
  by_cases hlt : i < l.length
  · have := h i
    rw [errsAt, List.getD_eq_getElem?_getD] at this
    simpa [hlt] using this
  · rcases hk : i - l.length with _ | k <;> simp [hlt, hk, errsOf]

lemma errsOf_keep (l : List (Option NodeM)) (j : Nat) (h : errorsOk l) (n : NodeM)
    (hn : l.getD j none = some n) (q : Nat) (a : AttrM) (es : List DefinedEffectM) :
    errsOf (some ⟨q, a, n.item, es⟩) = 0 := by
  have hj := h j
  rw [errsAt, hn] at hj
  simpa [errsOf] using hj

lemma errorsOk_ensureFree (t : TreeM) (h : errorsOk t.nodes) :
    errorsOk t.ensureFree.nodes := by
  unfold TreeM.ensureFree
  split
  · exact errorsOk_append_none t.nodes h
  · exact h

lemma errorsOk_create (t : TreeM) (p : Nat) (nm : String) (now : Nat)
    (h : errorsOk t.nodes) : errorsOk (t.create p nm now).2.nodes := by
  unfold TreeM.create
  have h1 := errorsOk_ensureFree t h
  dsimp only
  rcases hsp : t.ensureFree.slot p with _ | pnode
  · exact h1
  · dsimp only
    rcases hit : pnode.item with children | ⟨buf, st⟩ | pth
    · dsimp only
      split
      · refine errorsOk_set _ _ _ ?_ h1
        rfl
      · exact h1
    · exact h1
    · exact h1

lemma errorsOk_createNodeFS (t : TreeM) (p : Nat) (nm : String) (nt : NodeCreateTM)
    (now : Nat) (h : errorsOk t.nodes) : errorsOk (createNodeFS t p nm nt now).2.nodes := by
  unfold createNodeFS
  rcases hc : t.create p nm now with ⟨r, t2⟩
  have h2 : errorsOk t2.nodes := by
    have := errorsOk_create t p nm now h
    rwa [hc] at this
  cases r with
  | error e => exact h2
  | ok ino =>
    cases nt with
    | dirT => exact errorsOk_set _ _ _ rfl h2
    | fileT => exact errorsOk_set _ _ _ rfl h2
    | symlinkT path => exact errorsOk_set _ _ _ rfl h2

lemma errorsOk_link (t : TreeM) (ino p : Nat) (nm : String) (now : Nat) (t2 : TreeM)
    (h : errorsOk t.nodes) (hr : t.link ino p nm now = .ok t2) : errorsOk t2.nodes := by
  unfold TreeM.link at hr
  split at hr
  · cases hr
  · split at hr
    · cases hr
    · rcases hsp : t.slot p with _ | pnode
      · rw [hsp] at hr
        cases hr
      · rw [hsp] at hr
        dsimp only at hr
        rcases hit : pnode.item with children | ⟨buf, st⟩ | pth
        · rw [hit] at hr
          dsimp only at hr
          split at hr
          · have hset : errorsOk (t.setSlot p (some { pnode with
                attr := { pnode.attr with
                  mtime := now
                  ctime := now
                  blocks := 1
                  size := pnode.attr.size + 1 }
                item := NodeItemM.dir (dirAdd children ino nm) })).nodes :=
              errorsOk_set _ _ _ rfl h
            split at hr
            · cases hr
            · cases hr
              rename_i node hnode
              refine errorsOk_set _ _ _ ?_ hset
              rw [TreeM.slot] at hnode
              exact errsOf_keep _ ino hset node hnode _ _ _
          · cases hr
        · rw [hit] at hr
          cases hr
        · rw [hit] at hr
          cases hr

lemma errorsOk_unlink (t : TreeM) (p : Nat) (nm : String) (now : Nat)
    (r : Option Unit) (t2 : TreeM) (h : errorsOk t.nodes)
    (hr : t.unlink p nm now = .ok (r, t2)) : errorsOk t2.nodes := by
  unfold TreeM.unlink at hr
  rcases hsp : t.slot p with _ | pnode
  · rw [hsp] at hr
    cases hr
  · rw [hsp] at hr
    dsimp only at hr
    rcases hit : pnode.item with children | ⟨buf, st⟩ | pth
    · rw [hit] at hr
      dsimp only at hr
      split at hr
      · cases hr
        refine errorsOk_set _ _ _ ?_ h
        simp only [errsOf, hit]
      · rename_i ino hlook
        have hset : errorsOk (t.setSlot p (some { pnode with
            attr := { pnode.attr with
              mtime := now
              ctime := now
              size := pnode.attr.size - 1 }
            item := NodeItemM.dir (dirRemove children nm) })).nodes :=
          errorsOk_set _ _ _ rfl h
        split at hr
        · cases hr
        · rename_i node hnode
          rw [TreeM.slot] at hnode
          split at hr
          · cases hr
            exact errorsOk_set _ _ _ rfl hset
          · cases hr
            refine errorsOk_set _ _ _ ?_ hset
            exact errsOf_keep _ ino hset node hnode _ _ _
    · rw [hit] at hr
      cases hr
    · rw [hit] at hr
      cases hr

lemma errorsOk_rename (t : TreeM) (p : Nat) (nm : String) (np : Nat) (nn : String)
    (now : Nat) (ino? : Option Nat) (t2 : TreeM) (h : errorsOk t.nodes)
    (hr : t.rename p nm np nn now = .ok (ino?, t2)) : errorsOk t2.nodes := by
  unfold TreeM.rename at hr
  rcases hsp : t.slot p with _ | opnode
  · rw [hsp] at hr
    cases hr
  · rw [hsp] at hr
    dsimp only at hr
    rcases hit : opnode.item with ochildren | ⟨buf, st⟩ | pth
    · rw [hit] at hr
      dsimp only at hr
      rcases hlook : dirLookup ochildren nm with _ | ino
      · rw [hlook] at hr
        dsimp only at hr
        split at hr
        · cases hr
        · split at hr
          · cases hr
          · cases hr
      · rw [hlook] at hr
        dsimp only at hr
        split at hr
        · cases hr
        · split at hr
          · cases hr
            refine errorsOk_set _ _ _ ?_ (errorsOk_set _ _ _ ?_ h)
            · rfl
            · rfl
          · cases hr
    · rw [hit] at hr
      cases hr
    · rw [hit] at hr
      cases hr

lemma errorsOk_renameFS (t : TreeM) (p : Nat) (nm : String) (np : Nat) (nn : String)
    (now : Nat) (t2 : TreeM) (h : errorsOk t.nodes)
    (hr : renameFS t p nm np nn now = .ok t2) : errorsOk t2.nodes := by
  unfold renameFS at hr
  rcases hren : t.rename p nm np nn now with _ | e | ⟨ino?, t3⟩
  · rw [hren] at hr
    cases hr
  · rw [hren] at hr
    cases hr
  · rw [hren] at hr
    have h3 : errorsOk t3.nodes := errorsOk_rename t p nm np nn now ino? t3 h hren
    cases ino? with
    | none => cases hr
    | some ino =>
      dsimp only at hr
      split at hr
      · cases hr
      · cases hr
        rename_i node hnode
        rw [TreeM.slot] at hnode
        refine errorsOk_set _ _ _ ?_ h3
        exact errsOf_keep _ ino h3 node hnode _ _ _

lemma errorsOk_xaSet (t : TreeM) (ino : Nat) (nm : String) (v : Option JVal)
    (t2 : TreeM) (h : errorsOk t.nodes) (hr : xaSet t ino nm v = .ok t2) :
    errorsOk t2.nodes := by
  unfold xaSet at hr
  split at hr
  · cases hr
    exact h
  · split at hr
    · split at hr
      · cases hr
      · cases hr
      · split at hr
        · cases hr
        · cases hr
          rename_i de node hnode
          rw [TreeM.slot] at hnode
          refine errorsOk_set _ _ _ ?_ h
          exact errsOf_keep _ ino h node hnode _ _ _
    · cases hr

lemma errorsOk_updateEffectsAt (t : TreeM) (i : Nat) (es : List DefinedEffectM)
    (h : errorsOk t.nodes) : errorsOk (updateEffectsAt t i es).nodes := by
  rw [updateEffectsAt]
  split
  · rename_i n hnode
    refine errorsOk_set _ _ _ ?_ h
    have hm := h i
    rw [errsAt, List.getD_eq_getElem?_getD] at hm
    rw [TreeM.slot, List.getD_eq_getElem?_getD] at hnode
    rw [hnode] at hm
    simpa [errsOf] using hm
  · exact h

lemma errorsOk_writeBackEffects (path : List NodeM) (t : TreeM)
    (h : errorsOk t.nodes) : errorsOk (writeBackEffects t path).nodes := by
  induction path generalizing t with
  | nil => exact h
  | cons n rest ih =>
    exact ih _ (errorsOk_updateEffectsAt t n.attr.ino n.effects h)

lemma errorsOk_writeFS (t : TreeM) (ino offset : Nat) (data : List Nat)
    (rng : Nat → Rat) (rngIdx now : Nat) (h : errorsOk t.nodes) :
    errorsOk (writeFS t ino offset data rng rngIdx now).1.nodes := by
  unfold writeFS
  rcases hrun : runFS t ino (.write offset data.length) rng rngIdx now
    with ⟨d, err, path2, ctx2⟩
  dsimp only
  have h1 : errorsOk (writeBackEffects t path2).nodes := errorsOk_writeBackEffects path2 t h
  cases err with
  | some e => exact h1
  | none =>
    dsimp only
    rcases hnode : (writeBackEffects t path2).slot ino with _ | n
    · exact h1
    · dsimp only
      have hm := h1 ino
      rw [errsAt] at hm
      rw [TreeM.slot] at hnode
      rw [hnode] at hm
      rcases hitem : n.item with cs | ⟨buf, stats⟩ | pth
      · refine errorsOk_set _ _ _ ?_ h1
        rfl
      · rw [errsOf] at hm
        rw [hitem] at hm
        dsimp only at hm
        refine errorsOk_set _ _ _ ?_ h1
        simpa [errsOf] using hm
      · refine errorsOk_set _ _ _ ?_ h1
        rfl

lemma errorsOk_readFS (t : TreeM) (ino offset size : Nat)
    (rng : Nat → Rat) (rngIdx now : Nat) (h : errorsOk t.nodes) :
    errorsOk (readFS t ino offset size rng rngIdx now).1.nodes := by
  unfold readFS
  rcases hrun : runFS t ino (.read offset size) rng rngIdx now
    with ⟨d, err, path2, ctx2⟩
  dsimp only
  have h1 : errorsOk (writeBackEffects t path2).nodes := errorsOk_writeBackEffects path2 t h
  cases err with
  | some e => exact h1
  | none =>
    dsimp only
    rcases hnode : (writeBackEffects t path2).slot ino with _ | n
    · exact h1
    · dsimp only
      have hm := h1 ino
      rw [errsAt] at hm
      rw [TreeM.slot] at hnode
      rw [hnode] at hm
      rcases hitem : n.item with cs | ⟨buf, stats⟩ | pth
      · refine errorsOk_set _ _ _ ?_ h1
        rfl
      · rw [errsOf] at hm
        rw [hitem] at hm
        dsimp only at hm
        refine errorsOk_set _ _ _ ?_ h1
        simpa [errsOf] using hm
      · refine errorsOk_set _ _ _ ?_ h1
        rfl

lemma errorsOk_applyOp (s : SysState) (op : FsOp) (h : errorsOk s.tree.nodes) :
    errorsOk (applyOp s op).tree.nodes := by
  rw [applyOp]
  split
  · exact h
  · cases op with
    | mkdirO p n => exact errorsOk_createNodeFS s.tree p n .dirT s.now h
    | mknodO p n => exact errorsOk_createNodeFS s.tree p n .fileT s.now h
    | symlinkO p n path => exact errorsOk_createNodeFS s.tree p n (.symlinkT path) s.now h
    | linkO ino p n =>
      rcases hr : s.tree.link ino p n s.now with _ | e | t2
      · simpa [hr] using h
      · simpa [hr] using h
      · simpa [hr] using errorsOk_link s.tree ino p n s.now t2 h hr
    | unlinkO p n =>
      rcases hr : s.tree.unlink p n s.now with _ | e | ⟨r, t2⟩
      · simpa [hr] using h
      · simpa [hr] using h
      · simpa [hr] using errorsOk_unlink s.tree p n s.now r t2 h hr
    | renameO p n np nn =>
      rcases hr : renameFS s.tree p n np nn s.now with _ | e | t2
      · simpa [hr] using h
      · simpa [hr] using h
      · simpa [hr] using errorsOk_renameFS s.tree p n np nn s.now t2 h hr
    | writeO ino offset data =>
      rcases hw : writeFS s.tree ino offset data s.rng s.rngIdx s.now with ⟨t2, rep, idx⟩
      have := errorsOk_writeFS s.tree ino offset data s.rng s.rngIdx s.now h
      rw [hw] at this
      simpa [hw] using this
    | readO ino offset size =>
      rcases hw : readFS s.tree ino offset size s.rng s.rngIdx s.now with ⟨t2, rep, dat, idx⟩
      have := errorsOk_readFS s.tree ino offset size s.rng s.rngIdx s.now h
      rw [hw] at this
      simpa [hw] using this
    | setxO ino n v =>
      rcases hr : xaSet s.tree ino n v with _ | e | t2
      · simpa [hr] using h
      · simpa [hr] using h
      · simpa [hr] using errorsOk_xaSet s.tree ino n v t2 h hr

/-- Claim C9: the errors counter of a file's FileStats is never
incremented by any dispatched operation.  If every file slot starts with
errors = 0, then after every request sequence — reads and writes with
their effect evaluations (including walks that end in an engine error),
creates, links, unlinks, renames and effect-setting xattrs — every file
slot still reports errors = 0, which is what bf.stats serializes, while
the reads/read_volume/writes/write_volume counters are the ones the
handlers advance. -/
theorem c9_errors_counter_stays_zero (ops : List FsOp) (s : SysState)
    (h : errorsOk s.tree.nodes) : errorsOk (applyOps s ops).tree.nodes := by
  induction ops generalizing s with
  | nil => exact h
  | cons op rest ih => exact ih (applyOp s op) (errorsOk_applyOp s op h)

/-- A request mix for the C9 witness: create file "f" (ino 2), attach a
delay effect, write through the engine, read back, and a failing
unlink. -/
def c9ops : List FsOp :=
  [.mknodO 1 "f", .setxO 2 "bf.effect.delay" (some delayJson),
   .writeO 2 0 [1, 2, 3], .readO 2 0 4, .unlinkO 1 "zz"]

theorem c9_errors_counter_stays_zero_witness :
    errsAt (applyOps sInit c9ops).tree.nodes 2 = 0 := by
  refine c9_errors_counter_stays_zero c9ops sInit ?_ 2
  intro i
  match i with
  | 0 => rfl
  | 1 => rfl
  | (k + 2) =>
    rw [errsAt, List.getD_eq_default]
    · rfl
    · show baseTree.nodes.length ≤ k + 2
      simp [baseTree]

end BF
